import Mathlib

/-!
Verification development for the fox HTTP routing and middleware-dispatch
engine.  The repository contains three routing cores:

* a `muxEntry`-based `Router` (cleanPath / Handle / registered),
* a gin-style `fox.Context` with a cursor-driven `Next` loop,
* a fiber-style `Engine` (app.go) whose route table, matcher and
  dispatcher are embedded here; the parts of that pipeline whose source
  is not in the repository slice are modelled from the specification and
  are marked `Modelled from the spec:` in their doc comments.

Go strings are embedded as Lean `String` (lists of characters); Go slices
as Lean lists; Go `int` as `Int` where the sign matters; panics and other
failures as `Except`/`Option` results.
-/

namespace GoStr

/-- Embedding of Go `strings.Split(s, "/")` on the character list of `s`:
splits at every slash, keeping empty segments (Go keeps them too). -/
def splitSlash : List Char → List (List Char)
  | [] => [[]]
  | c :: rest =>
    if c = '/' then [] :: splitSlash rest
    else
      match splitSlash rest with
      | [] => [[c]]
      | s :: ss => (c :: s) :: ss

/-- Inverse of `splitSlash`: joins segments with a slash (Go
`strings.Join(segs, "/")`). -/
def joinSlash : List (List Char) → List Char
  | [] => []
  | [s] => s
  | s :: ss => s ++ '/' :: joinSlash ss

theorem splitSlash_ne_nil (cs : List Char) : splitSlash cs ≠ [] := by
  cases cs with
  | nil => simp [splitSlash]
  | cons c rest =>
    by_cases h : c = '/' <;> simp only [splitSlash, h, if_true, if_false, reduceIte]
    · simp
    · cases hs : splitSlash rest <;> simp

theorem joinSlash_splitSlash (cs : List Char) : joinSlash (splitSlash cs) = cs := by
  induction cs with
  | nil => rfl
  | cons c rest ih =>
    by_cases h : c = '/'
    · subst h
      simp only [splitSlash, if_true, reduceIte]
      cases hs : splitSlash rest with
      | nil => exact absurd hs (splitSlash_ne_nil rest)
      | cons s ss =>
        simp only [joinSlash]
        rw [hs] at ih
        simp [ih]
    · simp only [splitSlash, h, if_false, reduceIte]
      cases hs : splitSlash rest with
      | nil => exact absurd hs (splitSlash_ne_nil rest)
      | cons s ss =>
        rw [hs] at ih
        cases ss with
        | nil => simpa [joinSlash] using ih
        | cons t ts => simpa [joinSlash] using ih

/-- A slash-free non-empty character list splits into itself as the only
segment. -/
theorem splitSlash_no_slash (cs : List Char) (h : '/' ∉ cs) :
    splitSlash cs = [cs] := by
  induction cs with
  | nil => rfl
  | cons c rest ih =>
    simp only [List.mem_cons, not_or] at h
    have hc : ¬ c = '/' := fun hh => h.1 hh.symm
    simp only [splitSlash, hc, if_false, reduceIte]
    rw [ih h.2]

/-- Two strings with the same character data are equal. -/
theorem data_inj {a b : String} (h : a.data = b.data) : a = b := by
  cases a; cases b; cases h; rfl

/-- Embedding of Go `strings.ToUpper` restricted to the ASCII range (the
route methods the code compares against are all ASCII). -/
def upChar (c : Char) : Char :=
  if 'a' ≤ c ∧ c ≤ 'z' then Char.ofNat (c.toNat - 32) else c

/-- ASCII upper-casing of a whole string, Go `strings.ToUpper`. -/
def goToUpper (s : String) : String := String.mk (s.data.map upChar)

end GoStr

namespace Mux

open GoStr

/-- Segment-level embedding of Go `path.Clean`: empties and `.` are
dropped, `..` pops the previous segment (or is dropped at the root /
kept when the path is relative). -/
def cleanSegs (rooted : Bool) : List (List Char) → List (List Char) → List (List Char)
  | acc, [] => acc
  | acc, s :: ss =>
    if s = [] ∨ s = ['.'] then cleanSegs rooted acc ss
    else if s = ['.', '.'] then
      match acc with
      | [] => if rooted then cleanSegs rooted [] ss else cleanSegs rooted [['.', '.']] ss
      | a :: rest =>
        if a = ['.', '.'] then cleanSegs rooted (['.', '.'] :: a :: rest) ss
        else cleanSegs rooted rest ss
    else cleanSegs rooted (s :: acc) ss

/-- Embedding of Go `path.Clean`. -/
def goClean (p : String) : String :=
  if p = "" then "." else
  let rooted := p.data.head? = some '/'
  let segs := (cleanSegs rooted [] (splitSlash p.data)).reverse
  let body := joinSlash segs
  let out := if rooted then '/' :: body else body
  if out = [] then "." else String.mk out

/-- Embedding of Go `path.Join(a, b)`: empty leading elements are
skipped and the result is `Clean`ed; all-empty input gives `""`. -/
def goJoin2 (a b : String) : String :=
  if a = "" then (if b = "" then "" else goClean b)
  else goClean (a ++ "/" ++ b)

/-- `cleanPath` from the router: canonicalises a pattern, guaranteeing a
leading slash and restoring a single trailing slash removed by
`path.Clean`. -/
def cleanPath (p : String) : String :=
  if p = "" then "/" else
  let p' := if p.data.head? = some '/' then p else "/" ++ p
  let np := goClean p'
  if p'.data.getLast? = some '/' ∧ np ≠ "/" then np ++ "/" else np

/-- The recognised HTTP verbs, `_HTTPMethods` from the router file. -/
def httpMethods : List String :=
  ["GET", "POST", "PUT", "PATCH", "DELETE", "HEAD", "OPTIONS"]

/-- The three setup-time panics `Router.Handle` can raise
(`log.Panicf` messages, with their formatted arguments). -/
inductive RegPanic where
  | unknownMethod (method rel : String)
  | nilHandler (method rel : String)
  | multipleReg (method rel : String)
  deriving DecidableEq, Repr

/-- One registered entry, `muxEntry` from the router file.  The handler
type is abstract (`H`): the router never inspects handlers. -/
structure muxEntry (H : Type) where
  handlers : List H
  pattern : String
  method : String
  deriving DecidableEq, Repr

/-- The `Router` state: `keys` is the domain of the `routes` nested map
(the `(method, pattern)` pairs already registered), `es` the
registration-ordered entry list. -/
structure Router (H : Type) where
  keys : List (String × String) := []
  es : List (muxEntry H) := []
  basePath : String := ""
  deriving DecidableEq, Repr

/-- `Router.Handle`: upper-cases and validates the method, joins the
pattern onto the base path, canonicalises it, and rejects empty handler
lists and duplicate `(method, pattern)` registrations; panics become
`Except.error`. -/
def Router.Handle {H : Type} (router : Router H) (httpMethod relativePath : String)
    (handlers : List H) : Except RegPanic (Router H) :=
  let m := GoStr.goToUpper httpMethod
  if m ∉ httpMethods then .error (.unknownMethod m relativePath)
  else
    let rel := goJoin2 router.basePath relativePath
    let pat := cleanPath rel
    if handlers.isEmpty then .error (.nilHandler m rel)
    else if (m, pat) ∈ router.keys then .error (.multipleReg m rel)
    else .ok { router with
                keys := (m, pat) :: router.keys,
                es := router.es ++ [⟨handlers, pat, m⟩] }

end Mux

namespace Fox

/-- The observable result of `call(c, handler)` for one handler: the
`(res, code, err)` triple the dispatch loop inspects.  Handlers are
embedded by this result; a handler that re-enters `Next` itself is not
modelled (the claims under study only involve handlers that return). -/
structure CallResult where
  res : Option String := none
  code : Int := 0
  err : Option String := none
  deriving DecidableEq, Repr

/-- Response-writing actions the `Next` loop performs (`renderError`
writes a 500 with the error text; `render` writes `code`/`res`). -/
inductive RenderEvent where
  | renderError (msg : String)
  | render (code : Int) (res : Option String)
  deriving DecidableEq, Repr

/-- The body of `Context.Next`'s `for` loop, read off the suffix of the
handler chain starting at the cursor: on an error the loop renders it
and returns at once (cursor left on the failing handler); otherwise a
non-nil result or non-zero code is rendered and the cursor advances.
Returns the final cursor, the invoked positions, and the render log. -/
def nextLoop : List CallResult → Nat → Nat × List Nat × List RenderEvent
  | [], i => (i, [], [])
  | r :: rest, i =>
    match r.err with
    | some e => (i, [i], [.renderError e])
    | none =>
      let t := nextLoop rest (i + 1)
      (t.1, i :: t.2.1,
        (if r.res.isSome || r.code != 0 then [RenderEvent.render r.code r.res] else []) ++ t.2.2)

/-- `Context.Next`: increments the cursor, then runs the loop over the
handlers from the new cursor on.  A Go slice access with a negative
index panics, hence `none` when the incremented cursor is negative and
the chain is non-empty. -/
def Next (handlers : List CallResult) (index : Int) :
    Option (Int × List Nat × List RenderEvent) :=
  if index + 1 < 0 then
    if handlers.length = 0 then some (index + 1, [], []) else none
  else
    let s := (index + 1).toNat
    let t := nextLoop (handlers.drop s) s
    some ((t.1 : Int), t.2.1, t.2.2)

/-- The mutable per-request `fox.Context` state touched by `reset`. -/
structure Context where
  request : Nat := 0
  writerStatus : Int := 200
  writerSize : Int := -1
  params : List String := []
  handlers : List CallResult := []
  index : Int := -1
  keys : Option (List (String × String)) := none
  deriving DecidableEq, Repr

/-- `Context.reset`: fresh writer (`size = noWritten`, `status =
defaultStatus`), new request, parameter slice truncated to length zero,
handler chain and key bag cleared, cursor back to the before-first
sentinel. -/
def Context.reset (c : Context) (req : Nat) : Context :=
  { request := req
    writerStatus := 200
    writerSize := -1
    params := c.params.take 0
    handlers := []
    index := -1
    keys := none }

/-- `Engine.getParams`: a parameter slice pulled from the pool is
re-sliced to `[0:0]` before use. -/
def getParams (pooled : List String) : List String := pooled.take 0

/-- Modelled from the spec: `acquire` pulls a previously released
context from the pool (or a fresh one) and resets every field; the
reset itself is `Context.reset` above, taken from the source. -/
def acquire (pool : List Context) (req : Nat) : Context :=
  (pool.headD {}).reset req

end Fox

namespace Fiber

open GoStr

/-- Go `error` values reaching the error handler: `*Error` carries a
status code (`Error` struct from app.go), anything else is a plain
error with only a message. -/
inductive GoError where
  | httpError (code : Int) (message : String)
  | basic (message : String)
  deriving DecidableEq, Repr

/-- The `Error()` method: both forms report their message. -/
def GoError.text : GoError → String
  | .httpError _ m => m
  | .basic m => m

/-- The accumulated response state: status, body, headers.  The fiber
default status is 200. -/
structure Resp where
  status : Int := 200
  body : String := ""
  headers : List (String × String) := []
  deriving DecidableEq, Repr

/-- `ctx.Set(key, value)` on the response: replaces the header. -/
def setHeader (hs : List (String × String)) (k v : String) : List (String × String) :=
  (k, v) :: hs.filter (fun p => p.1 ≠ k)

/-- `defaultErrorHandler` from app.go: status 500 unless the error is a
`*Error`, whose `Code` wins; plain-text content type; the error text as
body. -/
def defaultErrorHandler (r : Resp) (e : GoError) : Resp :=
  let code : Int := match e with
    | .httpError c _ => c
    | .basic _ => 500
  { r with
      headers := setHeader r.headers "Content-Type" "text/plain; charset=utf-8"
      status := code
      body := e.text }

/-- What one fiber handler does with control: pass on (`Next()`),
return without calling `Next` (ending the chain), or raise an error
(`Next(err)`). -/
inductive Action where
  | next
  | stop
  | nextErr (e : GoError)
  deriving DecidableEq, Repr

/-- How a chain run ended. -/
inductive Outcome where
  | completed
  | halted
  | errored (e : GoError)
  deriving DecidableEq, Repr

/-- Modelled from the spec: the dispatcher's Next-loop over the merged
handler chain (fiber's `ctx.Next` / `app.next` are not in the source
slice).  Handlers run in order while each calls `Next()`; a handler
that returns without calling `Next` halts the chain; `Next(err)` stops
the normal path and transfers to the application-level error handler.
Returns the indices of executed handlers, the outcome, and the
response. -/
def runChain (errH : Resp → GoError → Resp) :
    List Action → Nat → Resp → List Nat × Outcome × Resp
  | [], _, r => ([], .completed, r)
  | a :: rest, i, r =>
    match a with
    | .next =>
      let t := runChain errH rest (i + 1) r
      (i :: t.1, t.2.1, t.2.2)
    | .stop => ([i], .halted, r)
    | .nextErr e => ([i], .errored e, errH r e)

/-- Compiled pattern segments (spec §4.1): literal, required parameter,
optional parameter, trailing wildcard. -/
inductive Seg where
  | literal (s : List Char)
  | param (name : List Char)
  | opt (name : List Char)
  | wildcard
  deriving DecidableEq, Repr

/-- Modelled from the spec: classify one pattern segment (`*` is the
wildcard, a leading `:` introduces a parameter, a trailing `?` on a
parameter makes it optional, anything else is a literal). -/
def segOf (cs : List Char) : Seg :=
  if cs = ['*'] then .wildcard
  else if cs.head? = some ':' then
    if cs.tail.getLast? = some '?' then .opt cs.tail.dropLast else .param cs.tail
  else .literal cs

/-- A pattern with no leading slash is treated as if one were
prepended (spec §4.1 edge-case policy). -/
def normalizePattern (p : String) : String :=
  if p.data.head? = some '/' then p else String.mk ('/' :: p.data)

/-- Modelled from the spec: the Path Compiler.  The root pattern `/`
compiles to no segments; otherwise the pattern body is split at slashes
and each piece classified. -/
def parseRoute (pattern : String) : List Seg :=
  let norm := normalizePattern pattern
  if norm = "/" then []
  else
    (splitSlash (norm.data.drop 1)).map segOf

/-- The parameter names aligned with the capture slots (`*` for the
wildcard as in the tests). -/
def paramNames (segs : List Seg) : List String :=
  segs.foldr (fun s acc =>
    match s with
    | .param n => String.mk n :: acc
    | .opt n => String.mk n :: acc
    | .wildcard => "*" :: acc
    | .literal _ => acc) []

/-- The request path as a segment list: the bare root is no segments,
otherwise the path body split at slashes (consecutive slashes yield
empty segments — they are not collapsed). -/
def pathSegments (p : String) : List (List Char) :=
  if p.data = ['/'] then []
  else
    match p.data with
    | '/' :: rest => splitSlash rest
    | cs => splitSlash cs

/-- Modelled from the spec: the Route Matcher walking compiled segments
and path segments in lockstep.  `use = true` is middleware prefix
matching (leftover path segments are accepted and not captured); a
required parameter consumes one non-empty segment; an optional
parameter consumes a segment only if the rest still aligns; the
wildcard captures the joined remainder. -/
def matchSegs : List Seg → List (List Char) → Bool → Option (List (List Char))
  | [], ps, u => if u then some [] else if ps.isEmpty then some [] else none
  | .literal s :: ss, p :: ps, u => if p = s then matchSegs ss ps u else none
  | .literal _ :: _, [], _ => none
  | .param _ :: ss, p :: ps, u =>
    if p ≠ [] then (matchSegs ss ps u).map (p :: ·) else none
  | .param _ :: _, [], _ => none
  | .opt _ :: ss, p :: ps, u =>
    match matchSegs ss ps u with
    | some cs => some (p :: cs)
    | none => (matchSegs ss (p :: ps) u).map ([] :: ·)
  | .opt _ :: ss, [], u => (matchSegs ss [] u).map ([] :: ·)
  | .wildcard :: _, ps, _ => some [joinSlash ps]

/-- One registered route (the `Route` struct): method, raw and
normalized path, middleware flag, root/star flags, compiled segments,
parameter names and the handler chain. -/
structure Route where
  use : Bool := false
  root : Bool := false
  star : Bool := false
  method : String := "GET"
  path : String := "/"
  segs : List Seg := []
  params : List String := []
  handlers : List Action := []
  deriving DecidableEq, Repr

/-- `Route.match(path)`: segment matching of a concrete request path,
returning the captures on success. -/
def Route.matchPath (r : Route) (p : String) : Option (List String) :=
  (matchSegs r.segs (pathSegments p) r.use).map (List.map String.mk)

/-- Modelled from the spec: building the `Route` record at
registration. -/
def buildRoute (use : Bool) (method path : String) (handlers : List Action) : Route :=
  let norm := normalizePattern path
  let segs := parseRoute norm
  { use := use
    root := norm = "/"
    star := norm = "/*"
    method := method
    path := norm
    segs := segs
    params := paramNames segs
    handlers := handlers }

/-- The canonical method order (`intMethod`). -/
def intMethod : List String :=
  ["GET", "HEAD", "POST", "PUT", "DELETE", "CONNECT", "OPTIONS", "TRACE", "PATCH"]

/-- `methodInt`: position of a method in the canonical order (the list
length for unknown methods, which indexes past the stack). -/
def methodInt (m : String) : Nat := intMethod.indexOf m

/-- The sentinel pseudo-method `Use` registers under. -/
def methodUse : String := "USE"

/-- The engine settings the dispatcher consults. -/
structure Settings where
  errorHandler : Resp → GoError → Resp := defaultErrorHandler
  strictRouting : Bool := false

/-- The fiber `Engine`: the per-method route stack plus settings. -/
structure Engine where
  stack : List (List Route) := List.replicate intMethod.length []
  settings : Settings := {}

/-- The route list registered under a method. -/
def Engine.stackAt (app : Engine) (m : String) : List Route :=
  app.stack.getD (methodInt m) []

/-- `addRoute`: append a route to one method's list. -/
def addRoute (app : Engine) (method : String) (r : Route) : Engine :=
  { app with stack := app.stack.set (methodInt method) (app.stackAt method ++ [r]) }

/-- Modelled from the spec: `register`.  An empty handler list is a
setup-time panic (`none`); a `Use` registration is a middleware entry
appended to every method's list; otherwise the route is appended under
its method.  Returns the new engine and the built route. -/
def register (app : Engine) (method path : String) (handlers : List Action) :
    Option (Engine × Route) :=
  if handlers.isEmpty then none
  else if method = methodUse then
    let r := buildRoute true method path handlers
    some ({ app with stack := app.stack.map (· ++ [r]) }, r)
  else
    let r := buildRoute false method path handlers
    some (addRoute app method r, r)

/-- `Engine.GET` from app.go: register the GET route, then append a
copy of the very same route record under HEAD. -/
def Engine.GET (app : Engine) (path : String) (handlers : List Action) : Option Engine :=
  (register app "GET" path handlers).map fun t => addRoute t.1 "HEAD" t.2

/-- `Engine.Add` from app.go (used by POST, PUT, DELETE, ...). -/
def Engine.Add (app : Engine) (method path : String) (handlers : List Action) :
    Option Engine :=
  (register app method path handlers).map Prod.fst

/-- `Engine.Use` with an explicit path argument. -/
def Engine.Use (app : Engine) (path : String) (handlers : List Action) : Option Engine :=
  (register app methodUse path handlers).map Prod.fst

/-- `New()`: empty stacks, default settings. -/
def New : Engine := {}

/-- All trailing slashes of the path are trimmed when strict routing is
disabled and the path is longer than `/` (spec §4.1: a trailing slash
is ignored outside strict mode). -/
def normalizeReqPath (strict : Bool) (p : String) : String :=
  if strict ∨ p.data.length ≤ 1 then p
  else String.mk ((p.data.reverse.dropWhile (fun c => c = '/')).reverse)

/-- Modelled from the spec: the merged handler chain for one request —
every matching middleware entry's handlers in registration order,
closed by the first fully matching exact route.  Also reports whether
an exact route matched. -/
def buildChain : List Route → String → List Action × Bool
  | [], _ => ([], false)
  | r :: rs, p =>
    match r.matchPath p with
    | none => buildChain rs p
    | some _ =>
      if r.use then
        let t := buildChain rs p
        (r.handlers ++ t.1, t.2)
      else (r.handlers, true)

/-- `allowedMethods(path)` (spec §4.3): the methods, in canonical
order, under which some exact (non-middleware) route matches the
path. -/
def allowedMethods (app : Engine) (p : String) : List String :=
  intMethod.filter fun m =>
    (app.stackAt m).any fun r => !r.use && (r.matchPath p).isSome

/-- The dispatcher's final step: the chain's own response when it
errored, halted, or completed with an exact route found; otherwise the
404/405 synthesis — 405 with the `Allow` header when another method's
route matches the (normalized) path, else 404 with the
`Cannot METHOD path` body. -/
def dispatchOut (app : Engine) (method path pn : String) (found : Bool)
    (run : List Nat × Outcome × Resp) : Resp :=
  match run.2.1 with
  | .errored _ => run.2.2
  | .halted => run.2.2
  | .completed =>
    if found then run.2.2
    else if (allowedMethods app pn).isEmpty then
      { status := 404, body := "Cannot " ++ method ++ " " ++ path, headers := [] }
    else
      { status := 405, body := "Cannot " ++ method ++ " " ++ path,
        headers := [("Allow", String.intercalate ", " (allowedMethods app pn))] }

/-- Runs the merged chain built for the request and hands the outcome
to `dispatchOut`. -/
def dispatchRun (app : Engine) (method path pn : String) (t : List Action × Bool) : Resp :=
  dispatchOut app method path pn t.2 (runChain app.settings.errorHandler t.1 0 {})

/-- Modelled from the spec: the Dispatcher.  Normalizes the request
path, builds the merged handler chain of the matching routes registered
under the request's method, runs it, and falls back to 404/405
synthesis when the chain falls through without an exact match. -/
def dispatch (app : Engine) (method path : String) : Resp :=
  dispatchRun app method path (normalizeReqPath app.settings.strictRouting path)
    (buildChain (app.stackAt method) (normalizeReqPath app.settings.strictRouting path))

end Fiber

/-- The engine of claim C4's example: `GET "/x"` and `POST "/x"`
registered on a fresh fiber engine. -/
def appC4 : Fiber.Engine :=
  ((Fiber.New.GET "/x" [.stop]).bind fun a => a.Add "POST" "/x" [.stop]).getD Fiber.New

/-- The engine of claim C9's scenario: `GET "/test"` registered on a
fresh fiber engine (`TestContextRouteNormalized`). -/
def appC9 : Fiber.Engine := (Fiber.New.GET "/test" [.stop]).getD Fiber.New

section NextLoopLemmas

/-- An error-free suffix is traversed completely: every handler from
the start position on is invoked once and the cursor lands one past the
last handler. -/
theorem Fox.nextLoop_no_err (hs : List Fox.CallResult) (i : Nat)
    (h : ∀ x ∈ hs, x.err = none) :
    ∃ ev, Fox.nextLoop hs i = (i + hs.length, List.range' i hs.length, ev) := by
  induction hs generalizing i with
  | nil => exact ⟨[], rfl⟩
  | cons r rest ih =>
    have hr : r.err = none := h r (List.mem_cons_self r rest)
    obtain ⟨ev, hev⟩ := ih (i + 1) (fun x hx => h x (List.mem_cons_of_mem r hx))
    refine ⟨(if r.res.isSome || r.code != 0 then [Fox.RenderEvent.render r.code r.res] else []) ++ ev, ?_⟩
    simp only [Fox.nextLoop, hr, List.append_eq]
    rw [hev]
    simp only [Prod.mk.injEq]
    refine ⟨by simp; omega, ?_, by simp⟩
    simp [List.range'_succ]

/-- A chain whose first error sits after an error-free block halts on
the erroring handler: it is the last one invoked, the cursor stays on
it, and the render log ends with its error. -/
theorem Fox.nextLoop_err (pre : List Fox.CallResult) (r : Fox.CallResult)
    (post : List Fox.CallResult) (i : Nat) (m : String)
    (h : ∀ x ∈ pre, x.err = none) (hm : r.err = some m) :
    ∃ ev, Fox.nextLoop (pre ++ r :: post) i =
      (i + pre.length, List.range' i (pre.length + 1), ev ++ [Fox.RenderEvent.renderError m]) := by
  induction pre generalizing i with
  | nil =>
    refine ⟨[], ?_⟩
    simp [Fox.nextLoop, hm, List.range'_succ]
  | cons a rest ih =>
    have ha : a.err = none := h a (List.mem_cons_self a rest)
    obtain ⟨ev, hev⟩ := ih (i + 1) (fun x hx => h x (List.mem_cons_of_mem a hx))
    refine ⟨(if a.res.isSome || a.code != 0 then [Fox.RenderEvent.render a.code a.res] else []) ++ ev, ?_⟩
    simp only [List.cons_append, Fox.nextLoop, ha, List.append_eq]
    rw [hev]
    simp only [Prod.mk.injEq]
    refine ⟨by simp; omega, ?_, by simp⟩
    simp [List.range'_succ]

end NextLoopLemmas

/-- C1 (counterexample): with a chain of two handlers, the first of
which returns without calling `Next` and without an error, `Next` from
the sentinel cursor still invokes the second handler — a handler that
returns without calling `Next()` does not halt the chain. -/
theorem fox_next_counterexample :
    Fox.Next [{}, {}] (-1) = some (2, [0, 1], []) ∧ ([0, 1] : List Nat) ≠ [0] := by
  constructor
  · rfl
  · decide

/-- C1 (amended): `Context.Next` increments the cursor and invokes each
handler at the cursor while it is below the chain length.  When no
handler returns an error the loop invokes every handler and terminates
with the cursor equal to the chain length.  A handler that returns an
error halts the chain (the following handlers are not invoked, the
error is rendered); merely returning without calling `Next` does not
halt it. -/
theorem fox_next_amended (hs pre post : List Fox.CallResult) (r : Fox.CallResult)
    (m : String) :
    ((∀ x ∈ hs, x.err = none) →
      ∃ ev, Fox.Next hs (-1) = some ((hs.length : Int), List.range hs.length, ev))
    ∧ ((∀ x ∈ pre, x.err = none) → r.err = some m →
      ∃ ev, Fox.Next (pre ++ r :: post) (-1) =
        some ((pre.length : Int), List.range (pre.length + 1),
          ev ++ [Fox.RenderEvent.renderError m])) := by
  constructor
  · intro h
    obtain ⟨ev, hev⟩ := Fox.nextLoop_no_err hs 0 h
    refine ⟨ev, ?_⟩
    simp [Fox.Next, hev, List.range_eq_range']
  · intro h hm
    obtain ⟨ev, hev⟩ := Fox.nextLoop_err pre r post 0 m h hm
    refine ⟨ev, ?_⟩
    simp [Fox.Next, hev, List.range_eq_range']

/-- C1 (witness): the amended theorem at concrete chains — a one-handler
error-free chain finishes with cursor 1, and a chain erroring at
position 1 halts there after invoking handlers 0 and 1. -/
theorem fox_next_amended_witness :
    (∃ ev, Fox.Next [{}] (-1) = some (1, List.range 1, ev))
    ∧ (∃ ev, Fox.Next [{}, { err := some "boom" }] (-1) =
        some (1, List.range 2, ev ++ [Fox.RenderEvent.renderError "boom"])) :=
  ⟨(fox_next_amended [{}] [] [] {} "").1 (by decide),
   (fox_next_amended [] [{}] [] { err := some "boom" } "boom").2 (by decide) rfl⟩

/-- C5: after a release/acquire cycle (and equally after any `reset`),
no request-specific state is observable: the parameter slice is
truncated to length zero, the cursor is back at the before-first
sentinel `-1`, the locals key bag is cleared, the handler chain is
empty; and `getParams` always hands out a zero-length slice. -/
theorem reset_clears_request_state (pool : List Fox.Context) (c : Fox.Context)
    (req req' : Nat) (pooledParams : List String) :
    (Fox.acquire pool req).params = [] ∧ (Fox.acquire pool req).index = -1 ∧
    (Fox.acquire pool req).keys = none ∧ (Fox.acquire pool req).handlers = [] ∧
    (c.reset req').params = [] ∧ (c.reset req').index = -1 ∧
    (c.reset req').keys = none ∧ (c.reset req').handlers = [] ∧
    Fox.getParams pooledParams = [] := by
  simp [Fox.acquire, Fox.Context.reset, Fox.getParams]

section ChainLemmas

/-- Running a chain whose prefix always calls `Next` and whose next
handler raises an error: the prefix and the erroring handler execute,
nothing after them does, and the error handler produces the
response. -/
theorem Fiber.runChain_err (errH : Fiber.Resp → Fiber.GoError → Fiber.Resp)
    (pre post : List Fiber.Action) (e : Fiber.GoError) (i : Nat) (r0 : Fiber.Resp)
    (h : ∀ a ∈ pre, a = Fiber.Action.next) :
    Fiber.runChain errH (pre ++ Fiber.Action.nextErr e :: post) i r0 =
      (List.range' i (pre.length + 1), Fiber.Outcome.errored e, errH r0 e) := by
  induction pre generalizing i with
  | nil => simp [Fiber.runChain, List.range'_succ]
  | cons a rest ih =>
    have ha : a = Fiber.Action.next := h a (List.mem_cons_self a rest)
    subst ha
    have hrest := ih (i + 1) (fun x hx => h x (List.mem_cons_of_mem _ hx))
    simp only [List.cons_append, Fiber.runChain, List.append_eq]
    rw [hrest]
    simp [List.range'_succ]

end ChainLemmas

/-- C2: when a handler in the chain hands an error to the dispatch loop
(`Next(err)`), the handlers after it never execute and the configured
application-level error handler receives exactly that error; under the
default error handler from app.go the response status is the code the
error carries when it is a `*Error`, and 500 otherwise. -/
theorem chain_error_transfer (errH : Fiber.Resp → Fiber.GoError → Fiber.Resp)
    (pre post : List Fiber.Action) (e : Fiber.GoError) (r0 : Fiber.Resp)
    (h : ∀ a ∈ pre, a = Fiber.Action.next) :
    Fiber.runChain errH (pre ++ Fiber.Action.nextErr e :: post) 0 r0 =
      (List.range (pre.length + 1), Fiber.Outcome.errored e, errH r0 e)
    ∧ (Fiber.defaultErrorHandler r0 e).status =
        (match e with
          | Fiber.GoError.httpError c _ => c
          | Fiber.GoError.basic _ => 500) := by
  constructor
  · rw [Fiber.runChain_err errH pre post e 0 r0 h, List.range_eq_range']
  · cases e <;> rfl

/-- C2 (witness): a concrete chain — one pass-through middleware, an
error-raising handler carrying a 404 `*Error`, one unreached handler —
executes only positions 0 and 1 and responds with status 404. -/
theorem chain_error_transfer_witness :
    Fiber.runChain Fiber.defaultErrorHandler
        [Fiber.Action.next, Fiber.Action.nextErr (Fiber.GoError.httpError 404 "nf"),
         Fiber.Action.stop] 0 {} =
      (List.range 2, Fiber.Outcome.errored (Fiber.GoError.httpError 404 "nf"),
        Fiber.defaultErrorHandler {} (Fiber.GoError.httpError 404 "nf"))
    ∧ (Fiber.defaultErrorHandler {} (Fiber.GoError.httpError 404 "nf")).status = 404 :=
  chain_error_transfer Fiber.defaultErrorHandler [Fiber.Action.next] [Fiber.Action.stop]
    (Fiber.GoError.httpError 404 "nf") {} (by decide)

/-- C6: registering the same `(method, normalized pattern)` pair twice
panics with the duplicate-registration error, including when the two
spellings differ but normalize to the same pattern (e.g. `get` and
`/get`). -/
theorem duplicate_registration_panics {H : Type} (r : Mux.Router H)
    (m p₁ p₂ : String) (hs₁ hs₂ : List H)
    (hm : GoStr.goToUpper m ∈ Mux.httpMethods)
    (h1 : hs₁ ≠ []) (h2 : hs₂ ≠ [])
    (hnorm : Mux.cleanPath (Mux.goJoin2 r.basePath p₁) =
      Mux.cleanPath (Mux.goJoin2 r.basePath p₂))
    (hnew : (GoStr.goToUpper m, Mux.cleanPath (Mux.goJoin2 r.basePath p₁)) ∉ r.keys) :
    (r.Handle m p₁ hs₁).bind (fun r' => r'.Handle m p₂ hs₂) =
      .error (.multipleReg (GoStr.goToUpper m) (Mux.goJoin2 r.basePath p₂)) := by
  have he₁ : hs₁.isEmpty = false := by simpa [List.isEmpty_iff] using h1
  have he₂ : hs₂.isEmpty = false := by simpa [List.isEmpty_iff] using h2
  simp only [Mux.Router.Handle, hm, not_true, if_neg, reduceIte, he₁, he₂,
    Bool.false_eq_true, hnew]
  simp only [Except.bind]
  rw [if_pos]
  exact List.mem_cons.mpr (Or.inl (by rw [hnorm]))

/-- C7: `Handle` panics on an empty handler list (for any recognised
method) and on an unrecognised method (whatever the handlers); in both
cases the registration fails, so no route is added. -/
theorem register_rejects_empty_and_unknown {H : Type} (r : Mux.Router H)
    (m p : String) :
    (GoStr.goToUpper m ∈ Mux.httpMethods →
      r.Handle m p ([] : List H) =
        .error (.nilHandler (GoStr.goToUpper m) (Mux.goJoin2 r.basePath p)))
    ∧ (GoStr.goToUpper m ∉ Mux.httpMethods →
      ∀ hs : List H, r.Handle m p hs =
        .error (.unknownMethod (GoStr.goToUpper m) p)) := by
  constructor
  · intro hm
    simp only [Mux.Router.Handle]
    rw [if_neg (by simpa using hm), if_pos (by simp)]
  · intro hm hs
    simp only [Mux.Router.Handle]
    rw [if_pos hm]

/-- C10: the method string is upper-cased before validation — the
unknown-method panic fires exactly when the upper-cased method is not
one of the seven recognised verbs, and a successful registration stores
the entry under the canonical upper-cased method. -/
theorem method_uppercased_validation {H : Type} (r : Mux.Router H)
    (m p : String) (hs : List H) (hne : hs ≠ []) :
    (GoStr.goToUpper m ∉ Mux.httpMethods ↔
      r.Handle m p hs = .error (.unknownMethod (GoStr.goToUpper m) p))
    ∧ (GoStr.goToUpper m ∈ Mux.httpMethods →
      (GoStr.goToUpper m, Mux.cleanPath (Mux.goJoin2 r.basePath p)) ∉ r.keys →
      r.Handle m p hs =
        .ok { keys := (GoStr.goToUpper m, Mux.cleanPath (Mux.goJoin2 r.basePath p)) :: r.keys,
              es := r.es ++ [⟨hs, Mux.cleanPath (Mux.goJoin2 r.basePath p), GoStr.goToUpper m⟩],
              basePath := r.basePath }) := by
  have he : hs.isEmpty = false := by simpa [List.isEmpty_iff] using hne
  constructor
  · constructor
    · intro hm
      simp only [Mux.Router.Handle]
      rw [if_pos hm]
    · intro heq
      by_contra hmem
      simp only [Mux.Router.Handle] at heq
      rw [if_neg (show ¬GoStr.goToUpper m ∉ Mux.httpMethods from fun hh => hh hmem),
        he] at heq
      simp only [Bool.false_eq_true, if_false, reduceIte] at heq
      by_cases hk : (GoStr.goToUpper m, Mux.cleanPath (Mux.goJoin2 r.basePath p)) ∈ r.keys
      · rw [if_pos hk] at heq
        exact Mux.RegPanic.noConfusion (Except.error.inj heq)
      · rw [if_neg hk] at heq
        exact Except.noConfusion heq
  · intro hm hk
    simp only [Mux.Router.Handle]
    rw [if_neg (by simpa using hm), he]
    simp only [Bool.false_eq_true, if_false, reduceIte]
    rw [if_neg hk]

/-- C6 (witness): on a fresh router, registering `GET "get"` and then
`GET "/get"` — two spellings normalizing to the pattern `/get` —
panics with the duplicate-registration error. -/
theorem duplicate_registration_panics_witness :
    (Mux.Router.Handle ({} : Mux.Router Nat) "GET" "get" [1]).bind
        (fun r' => r'.Handle "GET" "/get" [2]) =
      .error (.multipleReg "GET" "/get") :=
  duplicate_registration_panics {} "GET" "get" "/get" [1] [2]
    (by decide) (by decide) (by decide) (by decide) (by decide)

/-- C7 (witness): on a fresh router, `Handle "GET" "/doe"` with no
handlers panics with the missing-handler error, and `Handle "TEST"`
panics with the unknown-method error. -/
theorem register_rejects_empty_and_unknown_witness :
    (Mux.Router.Handle ({} : Mux.Router Nat) "GET" "/doe" [] =
      .error (.nilHandler "GET" "/doe"))
    ∧ (Mux.Router.Handle ({} : Mux.Router Nat) "TEST" "/doe" [1] =
      .error (.unknownMethod "TEST" "/doe")) :=
  ⟨(register_rejects_empty_and_unknown ({} : Mux.Router Nat) "GET" "/doe").1 (by decide),
   (register_rejects_empty_and_unknown ({} : Mux.Router Nat) "TEST" "/doe").2 (by decide) [1]⟩

/-- C10 (witness): the lower-case spelling `get` is accepted and stored
under `GET`, and `FOO` is rejected exactly because its upper-casing is
not a recognised verb. -/
theorem method_uppercased_validation_witness :
    (Mux.Router.Handle ({} : Mux.Router Nat) "get" "/x" [1] =
      .ok { keys := [("GET", "/x")], es := [⟨[1], "/x", "GET"⟩], basePath := "" })
    ∧ (Mux.Router.Handle ({} : Mux.Router Nat) "FOO" "/x" [1] =
      .error (.unknownMethod "FOO" "/x")) :=
  ⟨(method_uppercased_validation ({} : Mux.Router Nat) "get" "/x" [1] (by decide)).2
      (by decide) (by decide),
   ((method_uppercased_validation ({} : Mux.Router Nat) "FOO" "/x" [1] (by decide)).1).mp
      (by decide)⟩

section StackLemmas

/-- `addRoute` appends to the addressed method's list. -/
theorem Fiber.stackAt_addRoute_self (app : Fiber.Engine) (m : String) (r : Fiber.Route)
    (h : Fiber.methodInt m < app.stack.length) :
    (Fiber.addRoute app m r).stackAt m = app.stackAt m ++ [r] := by
  simp only [Fiber.addRoute, Fiber.Engine.stackAt]
  rw [List.getD_eq_getElem?_getD, List.getElem?_set_self (by simpa using h)]
  simp

/-- `addRoute` leaves the other methods' lists untouched. -/
theorem Fiber.stackAt_addRoute_ne (app : Fiber.Engine) (m m' : String) (r : Fiber.Route)
    (h : Fiber.methodInt m ≠ Fiber.methodInt m') :
    (Fiber.addRoute app m r).stackAt m' = app.stackAt m' := by
  simp only [Fiber.addRoute, Fiber.Engine.stackAt]
  rw [List.getD_eq_getElem?_getD, List.getElem?_set_ne h, ← List.getD_eq_getElem?_getD]

/-- `addRoute` does not change the stack's shape. -/
theorem Fiber.length_addRoute (app : Fiber.Engine) (m : String) (r : Fiber.Route) :
    (Fiber.addRoute app m r).stack.length = app.stack.length := by
  simp [Fiber.addRoute]

end StackLemmas

/-- C3: `Engine.GET` appends the registered route under GET and a copy
of the very same route record under HEAD — identical path, identical
compiled pattern, identical handler chain — so a HEAD request finds the
GET chain. -/
theorem get_registers_head (app : Fiber.Engine) (h9 : app.stack.length = 9)
    (p : String) (hs : List Fiber.Action) (hne : hs ≠ []) :
    ∃ app', app.GET p hs = some app'
      ∧ (app'.stackAt "HEAD").getLast? = some (Fiber.buildRoute false "GET" p hs)
      ∧ (app'.stackAt "GET").getLast? = some (Fiber.buildRoute false "GET" p hs)
      ∧ (Fiber.buildRoute false "GET" p hs).handlers = hs
      ∧ (Fiber.buildRoute false "GET" p hs).path = Fiber.normalizePattern p := by
  have he : hs.isEmpty = false := by simpa [List.isEmpty_iff] using hne
  set r := Fiber.buildRoute false "GET" p hs with hr
  refine ⟨Fiber.addRoute (Fiber.addRoute app "GET" r) "HEAD" r, ?_, ?_, ?_, rfl, rfl⟩
  · simp only [Fiber.Engine.GET, Fiber.register, he, Bool.false_eq_true, if_false,
      reduceIte, Option.map_some]
    rw [if_neg (by decide)]
    rfl
  · rw [Fiber.stackAt_addRoute_self _ _ _
      (by rw [Fiber.length_addRoute, h9]; decide), List.getLast?_concat]
  · rw [Fiber.stackAt_addRoute_ne _ _ _ _ (by decide),
      Fiber.stackAt_addRoute_self _ _ _ (by rw [h9]; decide), List.getLast?_concat]

/-- C3 (witness): registering `GET "/x"` on a fresh engine puts the
same route record at the end of both the GET and the HEAD lists. -/
theorem get_registers_head_witness :
    ∃ app', Fiber.New.GET "/x" [Fiber.Action.stop] = some app'
      ∧ (app'.stackAt "HEAD").getLast? =
          some (Fiber.buildRoute false "GET" "/x" [Fiber.Action.stop])
      ∧ (app'.stackAt "GET").getLast? =
          some (Fiber.buildRoute false "GET" "/x" [Fiber.Action.stop])
      ∧ (Fiber.buildRoute false "GET" "/x" [Fiber.Action.stop]).handlers = [Fiber.Action.stop]
      ∧ (Fiber.buildRoute false "GET" "/x" [Fiber.Action.stop]).path =
          Fiber.normalizePattern "/x" :=
  get_registers_head Fiber.New rfl "/x" [Fiber.Action.stop] (by decide)

section DispatchLemmas

/-- When no route in the list matches, the merged chain is empty and no
exact route was found. -/
theorem Fiber.buildChain_none (rs : List Fiber.Route) (p : String)
    (h : ∀ r ∈ rs, r.matchPath p = none) : Fiber.buildChain rs p = ([], false) := by
  induction rs with
  | nil => rfl
  | cons r rest ih =>
    simp only [Fiber.buildChain, h r (List.mem_cons_self r rest)]
    exact ih (fun x hx => h x (List.mem_cons_of_mem r hx))

end DispatchLemmas

/-- C4: when no route registered under the requested method matches the
(normalized) path but some exact route under another method does, the
dispatcher answers 405 and sets the `Allow` header to exactly the
methods whose routes match the path, joined in the fixed canonical
method order. -/
theorem method_not_allowed_allow_header (app : Fiber.Engine) (method path : String)
    (hno : ∀ r ∈ app.stackAt method,
      r.matchPath (Fiber.normalizeReqPath app.settings.strictRouting path) = none)
    (hsome : Fiber.allowedMethods app
      (Fiber.normalizeReqPath app.settings.strictRouting path) ≠ []) :
    Fiber.dispatch app method path =
      { status := 405, body := "Cannot " ++ method ++ " " ++ path,
        headers := [("Allow", String.intercalate ", " (Fiber.allowedMethods app
          (Fiber.normalizeReqPath app.settings.strictRouting path)))] } := by
  have hie : (Fiber.allowedMethods app
      (Fiber.normalizeReqPath app.settings.strictRouting path)).isEmpty = false := by
    simpa [List.isEmpty_iff] using hsome
  unfold Fiber.dispatch
  rw [Fiber.buildChain_none _ _ hno]
  simp only [Fiber.dispatchRun, Fiber.dispatchOut, Fiber.runChain, hie,
    Bool.false_eq_true, if_false, reduceIte]

/-- C4 (witness): with only `GET "/x"` and `POST "/x"` registered, a
`DELETE /x` request yields 405 with `Allow: GET, HEAD, POST`. -/
theorem method_not_allowed_allow_header_witness :
    Fiber.dispatch appC4 "DELETE" "/x" =
      { status := 405, body := "Cannot DELETE /x",
        headers := [("Allow", "GET, HEAD, POST")] } := by
  have h := method_not_allowed_allow_header appC4 "DELETE" "/x" (by decide) (by decide)
  exact h

/-- C8: a route compiled from the pattern `/*` matches every non-root
request path, producing exactly one capture — the request path with its
leading slash stripped. -/
theorem star_pattern_captures_path (s : String) (rest : List Char)
    (hroot : s ≠ "/") (hdata : s.data = '/' :: rest) :
    (Fiber.buildRoute false "GET" "/*" [Fiber.Action.stop]).matchPath s =
      some [String.mk rest] := by
  have hrest : rest ≠ [] := by
    intro h
    subst h
    exact hroot (GoStr.data_inj (by rw [hdata]))
  have hps : Fiber.pathSegments s = GoStr.splitSlash rest := by
    have hne : s.data ≠ ['/'] := by rw [hdata]; simpa using hrest
    unfold Fiber.pathSegments
    rw [if_neg hne]
    rw [hdata]
    rfl
  unfold Fiber.Route.matchPath
  rw [show (Fiber.buildRoute false "GET" "/*" [Fiber.Action.stop]).segs =
    [Fiber.Seg.wildcard] from rfl, hps]
  simp only [Fiber.matchSegs]
  rw [GoStr.joinSlash_splitSlash]
  rfl

/-- C8 (witness): pattern `/*` against the path `/user/keys/bla`
matches with the single capture `user/keys/bla`. -/
theorem star_pattern_captures_path_witness :
    (Fiber.buildRoute false "GET" "/*" [Fiber.Action.stop]).matchPath "/user/keys/bla" =
      some ["user/keys/bla"] :=
  star_pattern_captures_path "/user/keys/bla" "user/keys/bla".data (by decide) rfl

section TrailingSlash

/-- Path normalization leaves a path alone when it does not end in a
slash. -/
theorem Fiber.normalizeReqPath_id (p : String) (h : p.data.getLast? ≠ some '/') :
    Fiber.normalizeReqPath false p = p := by
  unfold Fiber.normalizeReqPath
  by_cases hl : p.data.length ≤ 1
  · rw [if_pos (Or.inr hl)]
  · rw [if_neg (by simpa using hl)]
    cases hr : p.data.reverse with
    | nil =>
      exfalso
      have h0 : p.data.length = 0 := by simpa using congrArg List.length hr
      omega
    | cons a t =>
      have hla : p.data.getLast? = some a := by
        rw [← List.head?_reverse, hr]; rfl
      have ha : ¬a = '/' := fun h' => h (h' ▸ hla)
      rw [List.dropWhile_cons, if_neg (by simpa using ha)]
      apply GoStr.data_inj
      show (a :: t).reverse = p.data
      rw [← hr, List.reverse_reverse]

end TrailingSlash

/-- C9 (counterexample): with `GET "/test"` registered and strict
routing disabled (the default), the request path `//test` does *not*
match the route — it yields 404 while `/test` yields 200
(`TestContextRouteNormalized`). -/
theorem double_slash_counterexample :
    (Fiber.dispatch appC9 "GET" "//test").status = 404 ∧
    (Fiber.dispatch appC9 "GET" "/test").status = 200 ∧ (404 : Int) ≠ 200 := by
  refine ⟨rfl, rfl, by decide⟩

/-- C9 (amended): consecutive slashes in the request path are *not*
collapsed even with strict routing disabled: for a route registered at
a single-segment literal pattern, the doubled-slash spelling of the
path produces an empty path segment, fails to match, and is answered
404, while the single-slash spelling matches and is answered 200. -/
theorem double_slash_amended (cs : List Char) (h1 : cs ≠ []) (h2 : '/' ∉ cs)
    (h3 : cs.head? ≠ some ':') (h4 : cs ≠ ['*']) :
    ∀ app', Fiber.New.GET (String.mk ('/' :: cs)) [Fiber.Action.stop] = some app' →
      (Fiber.dispatch app' "GET" (String.mk ('/' :: '/' :: cs))).status = 404 ∧
      (Fiber.dispatch app' "GET" (String.mk ('/' :: cs))).status = 200 := by
  intro app' happ'
  -- the registered route record
  set r := Fiber.buildRoute false "GET" (String.mk ('/' :: cs)) [Fiber.Action.stop] with hrdef
  have happ : app' = Fiber.addRoute (Fiber.addRoute Fiber.New "GET" r) "HEAD" r :=
    (Option.some.inj happ').symm
  subst happ
  -- the compiled pattern is the single literal segment `cs`
  have hsegs : r.segs = [Fiber.Seg.literal cs] := by
    have hnorm : Fiber.normalizePattern (String.mk ('/' :: cs)) = String.mk ('/' :: cs) := rfl
    have hnotroot : ¬(String.mk ('/' :: cs) : String) = "/" := by
      intro hh
      exact h1 (by simpa using congrArg String.data hh)
    rw [hrdef]
    show Fiber.parseRoute (Fiber.normalizePattern (String.mk ('/' :: cs)))
      = [Fiber.Seg.literal cs]
    rw [hnorm]
    unfold Fiber.parseRoute
    rw [hnorm, if_neg hnotroot]
    show (GoStr.splitSlash cs).map Fiber.segOf = [Fiber.Seg.literal cs]
    rw [GoStr.splitSlash_no_slash cs h2]
    show [Fiber.segOf cs] = [Fiber.Seg.literal cs]
    unfold Fiber.segOf
    rw [if_neg h4, if_neg h3]
  -- the registered route does not use middleware matching
  have huse : r.use = false := rfl
  -- the last character of the path body is not a slash
  have hlast : cs.getLast? ≠ some '/' := by
    intro hh
    obtain ⟨hne, hx⟩ := List.mem_getLast?_eq_getLast (show '/' ∈ cs.getLast? from hh)
    exact h2 (hx ▸ List.getLast_mem hne)
  -- the two request paths survive normalization unchanged
  have hn1 : Fiber.normalizeReqPath false (String.mk ('/' :: '/' :: cs)) =
      String.mk ('/' :: '/' :: cs) := by
    apply Fiber.normalizeReqPath_id
    show ('/' :: '/' :: cs).getLast? ≠ some '/'
    cases cs with
    | nil => exact absurd rfl h1
    | cons c tl =>
      rw [List.getLast?_cons_cons, List.getLast?_cons_cons]
      exact hlast
  have hn2 : Fiber.normalizeReqPath false (String.mk ('/' :: cs)) =
      String.mk ('/' :: cs) := by
    apply Fiber.normalizeReqPath_id
    show ('/' :: cs).getLast? ≠ some '/'
    cases cs with
    | nil => exact absurd rfl h1
    | cons c tl =>
      rw [List.getLast?_cons_cons]
      exact hlast
  -- segmenting the two paths
  have hseg1 : Fiber.pathSegments (String.mk ('/' :: '/' :: cs)) = [[], cs] := by
    unfold Fiber.pathSegments
    rw [if_neg (by simp)]
    show GoStr.splitSlash ('/' :: cs) = [[], cs]
    show [] :: GoStr.splitSlash cs = [[], cs]
    rw [GoStr.splitSlash_no_slash cs h2]
  have hseg2 : Fiber.pathSegments (String.mk ('/' :: cs)) = [cs] := by
    unfold Fiber.pathSegments
    rw [if_neg (by simpa using h1)]
    show GoStr.splitSlash cs = [cs]
    exact GoStr.splitSlash_no_slash cs h2
  -- the route rejects the doubled-slash path and accepts the plain one
  have hm1 : r.matchPath (String.mk ('/' :: '/' :: cs)) = none := by
    unfold Fiber.Route.matchPath
    rw [hsegs, huse, hseg1]
    simp [Fiber.matchSegs, Ne.symm h1]
  have hm2 : r.matchPath (String.mk ('/' :: cs)) = some [] := by
    unfold Fiber.Route.matchPath
    rw [hsegs, huse, hseg2]
    simp [Fiber.matchSegs]
  have hstackG : (Fiber.addRoute (Fiber.addRoute Fiber.New "GET" r) "HEAD" r).stackAt "GET"
      = [r] := rfl
  constructor
  · -- 404 branch: no chain, no allowed methods
    unfold Fiber.dispatch
    rw [show (Fiber.addRoute (Fiber.addRoute Fiber.New "GET" r) "HEAD" r).settings.strictRouting
      = false from rfl, hn1, hstackG]
    have hchain : Fiber.buildChain [r] (String.mk ('/' :: '/' :: cs)) = ([], false) := by
      apply Fiber.buildChain_none
      intro x hx
      rw [List.mem_singleton] at hx
      rw [hx]
      exact hm1
    rw [hchain]
    have hallow : Fiber.allowedMethods
        (Fiber.addRoute (Fiber.addRoute Fiber.New "GET" r) "HEAD" r)
        (String.mk ('/' :: '/' :: cs)) = [] := by
      have hmem : ∀ i, (([[r], [r], [], [], [], [], [], [], []] :
            List (List Fiber.Route)).getD i [] = [r]) ∨
          (([[r], [r], [], [], [], [], [], [], []] :
            List (List Fiber.Route)).getD i [] = []) := by
        intro i
        rw [List.getD_eq_getElem?_getD]
        rcases hx : ([[r], [r], [], [], [], [], [], [], []] :
            List (List Fiber.Route))[i]? with _ | x
        · exact Or.inr rfl
        · have hxm := List.getElem?_mem hx
          simp only [List.mem_cons, List.not_mem_nil, or_false] at hxm
          rcases hxm with h | h | h | h | h | h | h | h | h <;> simp [h]
      unfold Fiber.allowedMethods
      rw [List.filter_eq_nil_iff]
      intro m hm
      have hs := hmem (Fiber.methodInt m)
      have hsm : (Fiber.addRoute (Fiber.addRoute Fiber.New "GET" r) "HEAD" r).stackAt m = [r]
          ∨ (Fiber.addRoute (Fiber.addRoute Fiber.New "GET" r) "HEAD" r).stackAt m = [] := hs
      rcases hsm with hsm | hsm <;> rw [hsm]
      · simp [hm1]
      · simp
    unfold Fiber.dispatchRun Fiber.dispatchOut
    rw [hallow]
    rfl
  · -- 200 branch: the route matches, the chain halts with the default response
    unfold Fiber.dispatch
    rw [show (Fiber.addRoute (Fiber.addRoute Fiber.New "GET" r) "HEAD" r).settings.strictRouting
      = false from rfl, hn2, hstackG]
    have hchain : Fiber.buildChain [r] (String.mk ('/' :: cs)) =
        ([Fiber.Action.stop], true) := by
      unfold Fiber.buildChain
      rw [hm2]
      simp only [huse, Bool.false_eq_true, if_false, reduceIte]
      rfl
    rw [hchain]
    rfl

/-- C9 (witness): the amended theorem at the concrete route `/test` and
paths `//test` and `/test`. -/
theorem double_slash_amended_witness :
    (Fiber.dispatch appC9 "GET" "//test").status = 404 ∧
    (Fiber.dispatch appC9 "GET" "/test").status = 200 :=
  double_slash_amended "test".data (by decide) (by decide) (by decide) (by decide)
    appC9 rfl

